import Mathlib

/-!
Shallow embedding of the order reconciliation and lifecycle core of
`src/script.js` (class `KitchenDisplay`), together with proofs of the
specified properties.

Modelling conventions:
* Instants are integers counting milliseconds (JS `Date` arithmetic);
  a missing Firestore timestamp is `Option.none`.
* Statuses are strings, as in the source (the counting code must tolerate
  arbitrary status values).
* The wall clock (`Date.now()` / `new Date()`) is passed explicitly as `now`.
-/

namespace KitchenDisplay

open List

/-- An entry of `order.items` (name, quantity, price, optional notes). -/
structure OrderItem where
  name : String
  quantity : Int
  price : Int
  notes : Option String
  deriving DecidableEq

/-- An order record as assembled in `setupOrderListener` from a snapshot
document: the document id together with the document data fields. -/
structure Order where
  id : String
  status : String
  timestamp : Option Int
  tableNumber : Int
  orderNumber : Option Int
  items : List OrderItem
  specialInstructions : Option String
  total : Int
  deriving DecidableEq

/-- Two minutes in milliseconds, the recency guard of `detectNewOrders`. -/
def twoMinutesMs : Int := 2 * 60 * 1000

/-- Thirty minutes in milliseconds, the completed-order retention window of
`setupOrderListener`. -/
def thirtyMinutesMs : Int := 30 * 60 * 1000

/-- The retention test of `setupOrderListener` (script.js:267-268): status is
not completed, or a timestamp is present and lies inside the last thirty
minutes. -/
def keepInWorkingSet (now : Int) (orderData : Order) : Bool :=
  orderData.status != "completed" ||
    (match orderData.timestamp with
     | some t => decide (t > now - thirtyMinutesMs)
     | none => false)

/-- The snapshot adapter of `setupOrderListener` (script.js:262-271): push every
record passing the retention test, in snapshot order. -/
def snapshotWorkingSet (snapshot : List Order) (now : Int) : List Order :=
  snapshot.filter (keepInWorkingSet now)

/-- `detectNewOrders` (script.js:283-294): pending orders of the current set
whose id is absent from the previous set, restricted to those with a timestamp
strictly inside the last two minutes.  The returned list is `recentNewOrders`,
the set handed to the notification side effects. -/
def detectNewOrders (previousOrders orders : List Order) (now : Int) : List Order :=
  let currentPendingOrders := orders.filter (fun o => o.status == "pending")
  let newOrders := currentPendingOrders.filter (fun currentOrder =>
    !(previousOrders.any (fun prevOrder => prevOrder.id == currentOrder.id)))
  newOrders.filter (fun order =>
    match order.timestamp with
    | none => false
    | some orderTime => decide (orderTime > now - twoMinutesMs))

/-- The per-status tallies computed by `updateOrderCounts` (script.js:313-319). -/
structure OrderCounts where
  pending : Nat
  preparing : Nat
  ready : Nat
  completed : Nat
  deriving DecidableEq

/-- `updateOrderCounts` (script.js:313-319): four independent filters over the
working set; unexpected status values fall in no bucket. -/
def updateOrderCounts (orders : List Order) : OrderCounts :=
  { pending := (orders.filter (fun o => o.status == "pending")).length
  , preparing := (orders.filter (fun o => o.status == "preparing")).length
  , ready := (orders.filter (fun o => o.status == "ready")).length
  , completed := (orders.filter (fun o => o.status == "completed")).length }

/-- Whole elapsed minutes, `Math.floor(diffMs / (1000 * 60))` (script.js:657):
floor division of the millisecond difference. -/
def ageMins (now orderTime : Int) : Int := Int.fdiv (now - orderTime) (1000 * 60)

/-- `isUrgentOrder` (script.js:651-661): no timestamp is never urgent; otherwise
pending past 15 whole minutes or preparing past 30 whole minutes. -/
def isUrgentOrder (order : Order) (now : Int) : Bool :=
  match order.timestamp with
  | none => false
  | some orderTime =>
    (order.status == "pending" && decide (ageMins now orderTime > 15)) ||
    (order.status == "preparing" && decide (ageMins now orderTime > 30))

/-- `getEstimatedTime` (script.js:663-670): `min(15 + Σ quantity·2, 45)`. -/
def getEstimatedTime (order : Order) : Int :=
  let baseTime : Int := 15
  let itemComplexity :=
    order.items.foldl (fun time item => time + item.quantity * 2) 0
  min (baseTime + itemComplexity) 45

/-- The sort key used by the comparator of `displayOrders` (script.js:406-407):
the timestamp of the order, with a missing timestamp read as the current
instant. -/
def sortKeyTime (now : Int) (order : Order) : Int :=
  match order.timestamp with
  | some t => t
  | none => now

/-- The comparator passed to `filteredOrders.sort` (script.js:399-409). -/
def orderCmp (now : Int) (a b : Order) : Int :=
  if isUrgentOrder a now && !(isUrgentOrder b now) then -1
  else if !(isUrgentOrder a now) && isUrgentOrder b now then 1
  else sortKeyTime now a - sortKeyTime now b

/-- `a` may be placed before `b` by the sort: the comparator is non-positive. -/
def orderLe (now : Int) (a b : Order) : Bool := decide (orderCmp now a b ≤ 0)

/-- Insert `x` into `l` before the first element `y` with `le x y`.  Building
block of the stable sort below. -/
def insertOrd (le : α → α → Bool) (x : α) : List α → List α
  | [] => [x]
  | y :: ys => if le x y then x :: y :: ys else y :: insertOrd le x ys

/-- Stable sort by a boolean comparison, modelling ES2019
`Array.prototype.sort` with a consistent comparator (the stable sorted
permutation of a list is unique, so any stable sorting algorithm is the same
function; insertion sort keeps kernel evaluation structural). -/
def stableSort (le : α → α → Bool) : List α → List α
  | [] => []
  | x :: xs => insertOrd le x (stableSort le xs)

/-- The tab filter of `displayOrders` (script.js:393-397): a fresh filtered
array for a specific tab, the working-set array itself for `"all"`. -/
def filterByTab (orders : List Order) (activeTab : String) : List Order :=
  if activeTab != "all" then orders.filter (fun order => order.status == activeTab)
  else orders

/-- The sequence rendered by `displayOrders` (script.js:393-409): tab filter,
then the stable in-place sort by `orderCmp`. -/
def visibleOrders (orders : List Order) (activeTab : String) (now : Int) : List Order :=
  stableSort (orderLe now) (filterByTab orders activeTab)

/-- The stored working set `this.orders` after `displayOrders` returns.
`Array.prototype.sort` sorts in place, and for the `"all"` tab
`filteredOrders` is `this.orders` itself (script.js:393), so the stored array
becomes the sorted list; for any other tab only the fresh filtered copy is
sorted. -/
def ordersAfterDisplay (orders : List Order) (activeTab : String) (now : Int) : List Order :=
  if activeTab != "all" then orders
  else visibleOrders orders activeTab now

/-- A value written by the status-update command: a string, or the Firestore
`serverTimestamp()` sentinel resolved by the sink. -/
inductive FieldValue where
  | str : String → FieldValue
  | serverTimestamp : FieldValue
  deriving DecidableEq

/-- A point write to the external sink: `updateDoc(doc(ordersRef, orderId), fields)`. -/
structure UpdateCommand where
  orderId : String
  fields : List (String × FieldValue)
  deriving DecidableEq

/-- Collaborator-owned side effects issued by `updateOrderStatus`. -/
inductive UiEffect where
  | consoleLog : String → UiEffect
  | consoleError : String → UiEffect
  | alert : String → UiEffect
  | cardLoadingPulse : String → UiEffect
  deriving DecidableEq

/-- The updatedBy value (script.js:541): the logged-in chef name when a user
is logged in, the string Unknown otherwise. -/
def updatedByName (currentUser : Option String) : String :=
  match currentUser with
  | some name => name
  | none => "Unknown"

/-- The single `updateDoc` payload of `updateOrderStatus` (script.js:538-542):
the status field, the computed transition-timestamp field (the target status
followed by the suffix At) carrying the server-timestamp sentinel, and the
updatedBy field. -/
def updateCommand (orderId newStatus : String) (currentUser : Option String) : UpdateCommand :=
  { orderId := orderId
  , fields :=
      [ ("status", FieldValue.str newStatus)
      , (newStatus ++ "At", FieldValue.serverTimestamp)
      , ("updatedBy", FieldValue.str (updatedByName currentUser)) ] }

/-- Observable outcome of one `updateOrderStatus` call: the in-memory working
set afterwards, the commands sent to the sink, and the UI side effects. -/
structure UpdateOutcome where
  orders : List Order
  commands : List UpdateCommand
  effects : List UiEffect
  deriving DecidableEq

/-- `updateOrderStatus` (script.js:535-558).  `sinkOk` is whether the awaited
`updateDoc` resolves.  On success the card pulses and a log line is printed;
on failure the catch block logs and alerts.  No branch writes `this.orders`. -/
def updateOrderStatus (orders : List Order) (orderId newStatus : String)
    (currentUser : Option String) (sinkOk : Bool) : UpdateOutcome :=
  let cmd := updateCommand orderId newStatus currentUser
  if sinkOk then
    { orders := orders
    , commands := [cmd]
    , effects :=
        [ UiEffect.consoleLog ("Order " ++ orderId ++ " updated to " ++ newStatus)
        , UiEffect.cardLoadingPulse orderId ] }
  else
    { orders := orders
    , commands := [cmd]
    , effects :=
        [ UiEffect.consoleError "Error updating order status"
        , UiEffect.alert "Failed to update order status. Please try again." ] }

/-- Concrete pending order timestamped ten minutes before the instant 1000000,
used to instantiate the example of the reconciliation claim. -/
def tenMinOldPending : Order :=
  { id := "old", status := "pending", timestamp := some 400000
  , tableNumber := 1, orderNumber := some 1, items := []
  , specialInstructions := none, total := 100 }

/-- Concrete pending order timestamped one minute before the instant 1000000. -/
def oneMinOldPending : Order :=
  { id := "fresh", status := "pending", timestamp := some 940000
  , tableNumber := 2, orderNumber := some 2, items := []
  , specialInstructions := none, total := 200 }

/-- Concrete pending order reused across two identical snapshots. -/
def repeatedPending : Order :=
  { id := "X", status := "pending", timestamp := some 500000
  , tableNumber := 3, orderNumber := some 3, items := []
  , specialInstructions := none, total := 300 }

/-- Concrete non-urgent pending order with the later timestamp of the pair
used to exhibit the in-place mutation of the working set. -/
def laterPending : Order :=
  { id := "A", status := "pending", timestamp := some 200000
  , tableNumber := 4, orderNumber := some 4, items := []
  , specialInstructions := none, total := 400 }

/-- Concrete non-urgent pending order with the earlier timestamp of the pair
used to exhibit the in-place mutation of the working set. -/
def earlierPending : Order :=
  { id := "B", status := "pending", timestamp := some 100000
  , tableNumber := 5, orderNumber := some 5, items := []
  , specialInstructions := none, total := 500 }

/-- Concrete pending order timestamped at the instant 0, used at the
fifteen-minute urgency boundary. -/
def boundaryPending : Order :=
  { id := "boundary", status := "pending", timestamp := some 0
  , tableNumber := 6, orderNumber := some 6, items := []
  , specialInstructions := none, total := 600 }

/-- Concrete pending order timestamped at the instant 0, used to witness
urgency monotonicity. -/
def monotonePending : Order :=
  { id := "mono", status := "pending", timestamp := some 0
  , tableNumber := 7, orderNumber := some 7, items := []
  , specialInstructions := none, total := 700 }

/-- Concrete order with a two-unit item, used to witness the estimated-time
formula. -/
def twoUnitOrder : Order :=
  { id := "est", status := "pending", timestamp := some 0
  , tableNumber := 8, orderNumber := some 8
  , items := [{ name := "dish", quantity := 2, price := 100, notes := none }]
  , specialInstructions := none, total := 800 }

/-! ## General lemmas about the stable sort -/

theorem mem_insertOrd {le : α → α → Bool} {x a : α} {l : List α} :
    a ∈ insertOrd le x l ↔ a = x ∨ a ∈ l := by
  induction l with
  | nil => simp [insertOrd]
  | cons y ys ih =>
    by_cases h : le x y = true <;> simp [insertOrd, h, ih]
    tauto

theorem insertOrd_perm (le : α → α → Bool) (x : α) (l : List α) :
    insertOrd le x l ~ x :: l := by
  induction l with
  | nil => exact List.Perm.refl _
  | cons y ys ih =>
    by_cases h : le x y = true
    · rw [insertOrd, if_pos h]
    · rw [insertOrd, if_neg h]
      exact (ih.cons y).trans (List.Perm.swap x y ys)

theorem stableSort_perm (le : α → α → Bool) (l : List α) : stableSort le l ~ l := by
  induction l with
  | nil => exact List.Perm.refl _
  | cons x xs ih => exact (insertOrd_perm le x (stableSort le xs)).trans (ih.cons x)

theorem pairwise_insertOrd {le : α → α → Bool}
    (total : ∀ a b, le a b = true ∨ le b a = true)
    (trans : ∀ a b c, le a b = true → le b c = true → le a c = true)
    {x : α} {l : List α} (h : l.Pairwise (fun a b => le a b = true)) :
    (insertOrd le x l).Pairwise (fun a b => le a b = true) := by
  induction l with
  | nil => simp [insertOrd]
  | cons y ys ih =>
    rcases List.pairwise_cons.mp h with ⟨hy, hys⟩
    by_cases hxy : le x y = true
    · rw [insertOrd, if_pos hxy]
      refine List.pairwise_cons.mpr ⟨?_, h⟩
      intro b hb
      rcases List.mem_cons.mp hb with rfl | hb
      · exact hxy
      · exact trans x y b hxy (hy b hb)
    · rw [insertOrd, if_neg hxy]
      refine List.pairwise_cons.mpr ⟨?_, ih hys⟩
      intro b hb
      rcases mem_insertOrd.mp hb with rfl | hb
      · rcases total b y with hby | hyb
        · exact absurd hby hxy
        · exact hyb
      · exact hy b hb

theorem sorted_stableSort {le : α → α → Bool}
    (total : ∀ a b, le a b = true ∨ le b a = true)
    (trans : ∀ a b c, le a b = true → le b c = true → le a c = true)
    (l : List α) :
    (stableSort le l).Pairwise (fun a b => le a b = true) := by
  induction l with
  | nil => simp [stableSort]
  | cons x xs ih => exact pairwise_insertOrd total trans ih

theorem stableSort_of_sorted {le : α → α → Bool} {l : List α}
    (h : l.Pairwise (fun a b => le a b = true)) : stableSort le l = l := by
  induction l with
  | nil => rfl
  | cons x xs ih =>
    rcases List.pairwise_cons.mp h with ⟨hx, hxs⟩
    show insertOrd le x (stableSort le xs) = x :: xs
    rw [ih hxs]
    cases xs with
    | nil => rfl
    | cons y ys => rw [insertOrd, if_pos (hx y (List.mem_cons_self y ys))]

theorem sublist_insertOrd (le : α → α → Bool) (x : α) (l : List α) :
    l <+ insertOrd le x l := by
  induction l with
  | nil => exact List.nil_sublist _
  | cons y ys ih =>
    by_cases h : le x y = true
    · rw [insertOrd, if_pos h]
      exact List.sublist_cons_self x (y :: ys)
    · rw [insertOrd, if_neg h]
      exact List.Sublist.cons₂ y ih

theorem pair_sublist_insertOrd {le : α → α → Bool} {a b : α}
    (hab : le a b = true) {l : List α} (hb : b ∈ l) :
    [a, b] <+ insertOrd le a l := by
  induction l with
  | nil => cases hb
  | cons y ys ih =>
    by_cases hay : le a y = true
    · rw [insertOrd, if_pos hay]
      exact List.Sublist.cons₂ a (List.singleton_sublist.mpr hb)
    · rw [insertOrd, if_neg hay]
      rcases List.mem_cons.mp hb with rfl | hb
      · exact absurd hab hay
      · exact List.Sublist.cons y (ih hb)

theorem pair_sublist_stableSort {le : α → α → Bool} {a b : α}
    (hab : le a b = true) {l : List α} (h : [a, b] <+ l) :
    [a, b] <+ stableSort le l := by
  induction l with
  | nil => exact absurd h (by simp)
  | cons x xs ih =>
    cases h with
    | cons _ h => exact (ih h).trans (sublist_insertOrd le x (stableSort le xs))
    | cons₂ _ h =>
      exact pair_sublist_insertOrd hab
        (((stableSort_perm le xs).mem_iff).mpr (List.singleton_sublist.mp h))

/-! ## Characterization of the display comparator -/

theorem orderLe_iff {now : Int} {a b : Order} :
    orderLe now a b = true ↔
      (isUrgentOrder a now = true ∧ isUrgentOrder b now = false) ∨
      (isUrgentOrder a now = isUrgentOrder b now ∧
        sortKeyTime now a ≤ sortKeyTime now b) := by
  unfold orderLe orderCmp
  cases ha : isUrgentOrder a now <;> cases hb : isUrgentOrder b now <;>
    simp [decide_eq_true_iff]

theorem orderLe_total (now : Int) (a b : Order) :
    orderLe now a b = true ∨ orderLe now b a = true := by
  rcases Bool.eq_false_or_eq_true (isUrgentOrder a now) with ha | ha <;>
  rcases Bool.eq_false_or_eq_true (isUrgentOrder b now) with hb | hb <;>
  rcases Int.le_total (sortKeyTime now a) (sortKeyTime now b) with ht | ht <;>
    simp [orderLe_iff, ha, hb] <;> omega

theorem orderLe_trans (now : Int) (a b c : Order) :
    orderLe now a b = true → orderLe now b c = true → orderLe now a c = true := by
  simp only [orderLe_iff]
  rcases Bool.eq_false_or_eq_true (isUrgentOrder a now) with ha | ha <;>
  rcases Bool.eq_false_or_eq_true (isUrgentOrder b now) with hb | hb <;>
  rcases Bool.eq_false_or_eq_true (isUrgentOrder c now) with hc | hc <;>
    simp [ha, hb, hc] <;> omega

/-! ## Characterization of the urgency predicate -/

theorem ageMins_gt_iff (now t k : Int) :
    ageMins now t > k ↔ (k + 1) * (1000 * 60) ≤ now - t := by
  unfold ageMins
  rw [gt_iff_lt, Int.lt_iff_add_one_le, Int.fdiv_eq_ediv _ (by decide),
    Int.le_ediv_iff_mul_le (by decide)]

theorem isUrgentOrder_eq_true_iff (order : Order) (now : Int) :
    isUrgentOrder order now = true ↔
      ∃ t, order.timestamp = some t ∧
        ((order.status = "pending" ∧ 16 * 60 * 1000 ≤ now - t) ∨
         (order.status = "preparing" ∧ 31 * 60 * 1000 ≤ now - t)) := by
  cases h : order.timestamp with
  | none => simp [isUrgentOrder, h]
  | some t =>
    have h15 : ageMins now t > 15 ↔ 16 * 60 * 1000 ≤ now - t := by
      rw [ageMins_gt_iff]; omega
    have h30 : ageMins now t > 30 ↔ 31 * 60 * 1000 ≤ now - t := by
      rw [ageMins_gt_iff]; omega
    simp [isUrgentOrder, h, h15, h30, decide_eq_true_iff]

/-! ## Claim theorems -/

/-- C1: with an empty previous list, `detectNewOrders` returns exactly the
pending orders of the current list whose timestamp is strictly later than
`now` minus two minutes, in current-list order; in particular, of a pending
order timestamped ten minutes before `now = 1000000` and one timestamped one
minute before, only the latter appears. -/
theorem detectNew_empty_previous (curr : List Order) (now : Int) :
    detectNewOrders [] curr now =
      curr.filter (fun o =>
        o.status == "pending" &&
          (match o.timestamp with
           | none => false
           | some t => decide (t > now - twoMinutesMs))) ∧
    detectNewOrders [] [tenMinOldPending, oneMinOldPending] 1000000 =
      [oneMinOldPending] := by
  constructor
  · simp only [detectNewOrders, List.any_nil, Bool.not_false, List.filter_true,
      List.filter_filter]
    exact List.filter_congr fun a _ => Bool.and_comm _ _
  · decide

/-- C2: when the id of every pending order of the current list already occurs
among the ids of the previous list, `detectNewOrders` returns the empty list,
for any `now`. -/
theorem detectNew_no_new_ids (previousOrders orders : List Order) (now : Int)
    (h : ∀ o ∈ orders, o.status = "pending" →
      ∃ p ∈ previousOrders, p.id = o.id) :
    detectNewOrders previousOrders orders now = [] := by
  have hnil : (orders.filter (fun o => o.status == "pending")).filter
      (fun currentOrder =>
        !(previousOrders.any (fun prevOrder => prevOrder.id == currentOrder.id))) = [] := by
    rw [List.filter_eq_nil_iff]
    intro a ha
    rcases List.mem_filter.mp ha with ⟨hmem, hpend⟩
    obtain ⟨p, hp, hpid⟩ := h a hmem (by simpa using hpend)
    have hany : previousOrders.any (fun prevOrder => prevOrder.id == a.id) = true :=
      List.any_eq_true.mpr ⟨p, hp, by simp [hpid]⟩
    simp [hany]
  simp only [detectNewOrders, hnil, List.filter_nil]

/-- Witness for C2 at a concrete snapshot pair: a snapshot identical to the
preceding one yields no new-order events. -/
theorem detectNew_no_new_ids_witness :
    (∀ o ∈ [repeatedPending], o.status = "pending" →
      ∃ p ∈ [repeatedPending], p.id = o.id) ∧
    detectNewOrders [repeatedPending] [repeatedPending] 510000 = [] :=
  ⟨by decide, detectNew_no_new_ids [repeatedPending] [repeatedPending] 510000 (by decide)⟩

/-- C3: the adapter keeps a record of the snapshot exactly when its status is
not completed, or it is completed and carries a timestamp strictly later than
`now` minus thirty minutes; in particular a completed record without a
timestamp never enters the working set. -/
theorem workingSet_mem_iff (snapshot : List Order) (now : Int) (o : Order) :
    o ∈ snapshotWorkingSet snapshot now ↔
      o ∈ snapshot ∧
        (o.status ≠ "completed" ∨
          (o.status = "completed" ∧
            ∃ t, o.timestamp = some t ∧ t > now - thirtyMinutesMs)) := by
  simp only [snapshotWorkingSet, List.mem_filter, keepInWorkingSet]
  refine and_congr_right fun _ => ?_
  by_cases hs : o.status = "completed" <;>
    cases h : o.timestamp <;> simp [h, hs, decide_eq_true_iff]

/-- C4: a status transition issues exactly one command to the sink, carrying
the field status set to the target and the transition-timestamp field (target
status followed by the suffix At) set to the server-timestamp sentinel rather
than any locally computed instant; and when the sink call fails, the in-memory
working set is unchanged and the failure is surfaced through the alert path,
with no local mutation of any order. -/
theorem updateOrderStatus_dispatch (orders : List Order)
    (orderId targetStatus : String) (currentUser : Option String) (sinkOk : Bool) :
    (updateOrderStatus orders orderId targetStatus currentUser sinkOk).commands =
      [updateCommand orderId targetStatus currentUser] ∧
    ("status", FieldValue.str targetStatus) ∈
      (updateCommand orderId targetStatus currentUser).fields ∧
    (targetStatus ++ "At", FieldValue.serverTimestamp) ∈
      (updateCommand orderId targetStatus currentUser).fields ∧
    (updateOrderStatus orders orderId targetStatus currentUser false).orders =
      orders ∧
    UiEffect.alert "Failed to update order status. Please try again." ∈
      (updateOrderStatus orders orderId targetStatus currentUser false).effects := by
  cases sinkOk <;> simp [updateOrderStatus, updateCommand]

/-- C10: the status-update write carries exactly three fields: the status, the
transition-timestamp field holding the server-assigned time, and the updatedBy
field holding the logged-in chef name, or the string Unknown when no user is
logged in; no other field appears in the write. -/
theorem updateOrderStatus_fields_exact (orders : List Order)
    (orderId targetStatus : String) (currentUser : Option String) (sinkOk : Bool)
    (chef : String) :
    (updateOrderStatus orders orderId targetStatus currentUser sinkOk).commands =
      [{ orderId := orderId
       , fields :=
           [ ("status", FieldValue.str targetStatus)
           , (targetStatus ++ "At", FieldValue.serverTimestamp)
           , ("updatedBy", FieldValue.str (updatedByName currentUser)) ] }] ∧
    updatedByName (some chef) = chef ∧ updatedByName none = "Unknown" := by
  cases sinkOk <;> simp [updateOrderStatus, updateCommand, updatedByName]

/-- C7 counterexample: a pending order timestamped at 0, observed at
`now = 900001` ms.  Its age is 900001 ms, strictly more than 15 minutes
(900000 ms), so the claim says it is urgent; but the code floors the age to
whole minutes (15) before comparing strictly with 15, so `isUrgentOrder` is
false — the claimed equivalence fails at this input. -/
theorem isUrgent_claim_cex :
    boundaryPending.timestamp = some 0 ∧
    ¬ (isUrgentOrder boundaryPending 900001 = true ↔
        (boundaryPending.status = "pending" ∧
          (900001 : Int) - 0 > 15 * 60 * 1000) ∨
        (boundaryPending.status = "preparing" ∧
          (900001 : Int) - 0 > 30 * 60 * 1000)) := by
  decide

/-- C7 amended: `isUrgentOrder order now` is true if and only if the order has
a timestamp `t` and either its status is pending with `now - t` at least 16
whole minutes, or its status is preparing with `now - t` at least 31 whole
minutes (the code compares the floored whole-minute age strictly against
15 and 30); an order with no timestamp is never urgent, for any status and
any `now`. -/
theorem isUrgent_iff_floor_minutes (order : Order) (now : Int) :
    isUrgentOrder order now = true ↔
      ∃ t, order.timestamp = some t ∧
        ((order.status = "pending" ∧ 16 * 60 * 1000 ≤ now - t) ∨
         (order.status = "preparing" ∧ 31 * 60 * 1000 ≤ now - t)) :=
  isUrgentOrder_eq_true_iff order now

/-- C8: for an order whose item quantities are positive, the estimate is
`min (15 + Σ quantity * 2) 45`, and it lies between 15 and 45. -/
theorem getEstimatedTime_spec (order : Order)
    (hq : ∀ item ∈ order.items, 0 < item.quantity) :
    getEstimatedTime order =
      min (15 + (order.items.map (fun item => item.quantity * 2)).sum) 45 ∧
    15 ≤ getEstimatedTime order ∧ getEstimatedTime order ≤ 45 := by
  have hform : getEstimatedTime order =
      min (15 + (order.items.map (fun item => item.quantity * 2)).sum) 45 := by
    simp only [getEstimatedTime]
    congr 1
    have hfold : ∀ (l : List OrderItem) (a : Int),
        l.foldl (fun time item => time + item.quantity * 2) a =
          a + (l.map (fun item => item.quantity * 2)).sum := by
      intro l
      induction l with
      | nil => intro a; simp
      | cons x xs ih => intro a; simp [ih, add_assoc]
    simpa using hfold order.items 0
  have hsum : 0 ≤ (order.items.map (fun item => item.quantity * 2)).sum := by
    apply List.sum_nonneg
    intro x hx
    simp only [List.mem_map] at hx
    obtain ⟨item, hi, rfl⟩ := hx
    have := hq item hi
    omega
  refine ⟨hform, ?_, ?_⟩
  · rw [hform]
    refine le_min (by omega) (by omega)
  · rw [hform]
    exact min_le_right _ _

/-- Witness for C8 at a concrete order holding one item of quantity two. -/
theorem getEstimatedTime_spec_witness :
    (∀ item ∈ twoUnitOrder.items, 0 < item.quantity) ∧
    (getEstimatedTime twoUnitOrder =
        min (15 + (twoUnitOrder.items.map (fun item => item.quantity * 2)).sum) 45 ∧
      15 ≤ getEstimatedTime twoUnitOrder ∧ getEstimatedTime twoUnitOrder ≤ 45) :=
  ⟨by decide, getEstimatedTime_spec twoUnitOrder (by decide)⟩

/-- C9: urgency is monotone in age: an order urgent at `now` stays urgent at
any strictly later instant `now + d`, its status being unchanged. -/
theorem isUrgent_monotone (o : Order) (now d : Int) (hd : 0 < d)
    (h : isUrgentOrder o now = true) : isUrgentOrder o (now + d) = true := by
  rw [isUrgentOrder_eq_true_iff] at h ⊢
  obtain ⟨t, ht, hcase⟩ := h
  refine ⟨t, ht, ?_⟩
  rcases hcase with ⟨hs, hage⟩ | ⟨hs, hage⟩
  · exact Or.inl ⟨hs, by omega⟩
  · exact Or.inr ⟨hs, by omega⟩

/-- Witness for C9: a pending order timestamped at 0 is urgent at sixteen
minutes and stays urgent one minute later. -/
theorem isUrgent_monotone_witness :
    (0 : Int) < 60000 ∧ isUrgentOrder monotonePending (960000 + 60000) = true :=
  ⟨by decide, isUrgent_monotone monotonePending 960000 60000 (by decide) (by decide)⟩

/-- C5: the displayed sequence keeps exactly the orders of the active tab
(all of them for the tab "all"), every urgent order precedes every non-urgent
one, within one urgency class timestamps ascend (a missing timestamp reading
as `now`), and the sort is stable: a pair tied on urgency and sort key keeps
its relative position from the filtered input. -/
theorem visibleOrders_spec (orders : List Order) (activeTab : String) (now : Int) :
    (activeTab ≠ "all" →
      visibleOrders orders activeTab now ~
        orders.filter (fun o => o.status == activeTab)) ∧
    (activeTab = "all" → visibleOrders orders activeTab now ~ orders) ∧
    (visibleOrders orders activeTab now).Pairwise (fun a b =>
      (isUrgentOrder b now = true → isUrgentOrder a now = true) ∧
      (isUrgentOrder a now = isUrgentOrder b now →
        sortKeyTime now a ≤ sortKeyTime now b)) ∧
    (∀ a b : Order, isUrgentOrder a now = isUrgentOrder b now →
      sortKeyTime now a = sortKeyTime now b →
      [a, b] <+ filterByTab orders activeTab →
      [a, b] <+ visibleOrders orders activeTab now) := by
  refine ⟨?_, ?_, ?_, ?_⟩
  · intro h
    have : filterByTab orders activeTab =
        orders.filter (fun o => o.status == activeTab) := by
      rw [filterByTab, if_pos (by simpa using h)]
    rw [visibleOrders, this]
    exact stableSort_perm _ _
  · intro h
    subst h
    have : filterByTab orders "all" = orders := by
      rw [filterByTab, if_neg (by simp)]
    rw [visibleOrders, this]
    exact stableSort_perm _ _
  · refine List.Pairwise.imp ?_
      (sorted_stableSort (orderLe_total now) (orderLe_trans now) _)
    intro a b hab
    rcases orderLe_iff.mp hab with ⟨h1, h2⟩ | ⟨h1, h2⟩
    · exact ⟨fun _ => h1, fun he => absurd (h1.symm.trans (he.trans h2)) (by simp)⟩
    · exact ⟨fun hb => h1.trans hb, fun _ => h2⟩
  · intro a b hu ht hsub
    exact pair_sublist_stableSort
      (orderLe_iff.mpr (Or.inr ⟨hu, le_of_eq ht⟩)) hsub

/-- C6 counterexample: two non-urgent pending orders, the later-timestamped
one first, viewed on the tab "all" at instant 300000.  The sort of
`displayOrders` runs in place on the stored working set itself (for the tab
"all" the filtered array is the working set, not a copy), so after the call
the stored set is reordered: the claim that the input order set is left
unchanged fails. -/
theorem displayOrders_mutation_cex :
    ordersAfterDisplay [laterPending, earlierPending] "all" 300000 ≠
      [laterPending, earlierPending] := by
  decide

/-- C6 amended: `displayOrders` leaves the stored working set unchanged
whenever the active tab is not "all" (the sort then runs on a fresh filtered
array); for the tab "all" the in-place sort reorders the stored working set to
the sorted sequence, a permutation of it, so membership and the per-status
counts are unchanged; and a second call on the resulting state yields the same
displayed sequence and the same counts (idempotence). -/
theorem displayOrders_state_amended (orders : List Order) (activeTab : String)
    (now : Int) :
    (activeTab ≠ "all" → ordersAfterDisplay orders activeTab now = orders) ∧
    ordersAfterDisplay orders activeTab now ~ orders ∧
    visibleOrders (ordersAfterDisplay orders activeTab now) activeTab now =
      visibleOrders orders activeTab now ∧
    updateOrderCounts (ordersAfterDisplay orders activeTab now) =
      updateOrderCounts orders := by
  by_cases h : activeTab = "all"
  · subst h
    have hfb : ∀ l : List Order, filterByTab l "all" = l := by
      intro l; rw [filterByTab, if_neg (by simp)]
    have hperm : ordersAfterDisplay orders "all" now ~ orders := by
      rw [ordersAfterDisplay, if_neg (by simp), visibleOrders, hfb]
      exact stableSort_perm _ _
    refine ⟨fun hc => absurd rfl hc, hperm, ?_, ?_⟩
    · rw [ordersAfterDisplay, if_neg (by simp)]
      rw [visibleOrders, hfb, visibleOrders, hfb]
      exact stableSort_of_sorted
        (sorted_stableSort (orderLe_total now) (orderLe_trans now) _)
    · simp only [updateOrderCounts, OrderCounts.mk.injEq]
      exact ⟨(hperm.filter _).length_eq, (hperm.filter _).length_eq,
        (hperm.filter _).length_eq, (hperm.filter _).length_eq⟩
  · have hstate : ordersAfterDisplay orders activeTab now = orders := by
      rw [ordersAfterDisplay, if_pos (by simpa using h)]
    exact ⟨fun _ => hstate, by rw [hstate], by rw [hstate], by rw [hstate]⟩

end KitchenDisplay
